import Mathlib

/-!
Verification of the IOT-IA_Art repository (AI marketplace server + IOTA
Canvas client) against its natural-language specification.

The Python source is shallowly embedded: pure functions become Lean
functions, the database-backed job ledger becomes an association list,
the payment-watcher thread becomes a fuel-indexed loop over a balance
trace, and the event queue with its notifier channel becomes explicit
state passing over lists.  Python integers are modelled as `Int` (they
are unbounded), database ids and time values as `Nat`.
-/

namespace IotArt

/-! ### Marketplace configuration (`aimarket` Flask config values) -/

/-- The configuration values of the marketplace app that `calc_cost`
reads (`config['DEFAULT_COST']` and `config['TIME_COST']`). -/
structure Config where
  DEFAULT_COST : Int
  TIME_COST : Int
  deriving Repr, DecidableEq

/-! ### `aimarket/artist.py` — `calc_cost` -/

/-- Embedding of `calc_cost(average_time, surcharge=0, config)` from
`aimarket/artist.py`: if `average_time` is `None` the time cost is
`config['DEFAULT_COST']`, otherwise `average_time * config['TIME_COST']`;
the result is `int(surcharge + time_cost)` (identity on integers). -/
def calc_cost (average_time : Option Int) (surcharge : Int) (cfg : Config) : Int :=
  let time_cost :=
    match average_time with
    | none => cfg.DEFAULT_COST
    | some a => a * cfg.TIME_COST
  surcharge + time_cost

/-! ### `iotacanvas/iotacanvas.py` — `IotaCanvas.choose_artist` -/

/-- One entry of the `/artist-list` response as the client sees it:
an artist id together with its computed cost. -/
structure Artist where
  id : Nat
  cost : Int
  deriving Repr, DecidableEq

/-- The loop body of `choose_artist`: `if best_choice['cost'] > artist['cost']:
best_choice = artist`. -/
def chooseStep (best a : Artist) : Artist :=
  if best.cost > a.cost then a else best

/-- Embedding of `IotaCanvas.choose_artist`: raises `ValueError` on an
empty (or missing) list, modelled as `none`; otherwise starts with the
first element and scans the whole list, replacing the best choice only
on a strict cost improvement. -/
def choose_artist (artist_list : List Artist) : Option Artist :=
  match artist_list with
  | [] => none
  | x :: _ => some (artist_list.foldl chooseStep x)

/-! #### C1 -/

/-- Claim C1: For every `average_time` and every non-negative `surcharge`
(with the configured cost constants non-negative, as they are amounts),
`calc_cost` is deterministic (it is a function), equals
`surcharge + DEFAULT_COST` when `average_time` is `None` and
`surcharge + average_time * TIME_COST` otherwise, is non-negative, and
`calc_cost None 0 = DEFAULT_COST`. -/
theorem calc_cost_spec (cfg : Config) (t : Option Int) (s : Int)
    (hs : 0 ≤ s) (hd : 0 ≤ cfg.DEFAULT_COST) (ht : 0 ≤ cfg.TIME_COST)
    (ha : ∀ a, t = some a → 0 ≤ a) :
    (t = none → calc_cost t s cfg = s + cfg.DEFAULT_COST) ∧
    (∀ a, t = some a → calc_cost t s cfg = s + a * cfg.TIME_COST) ∧
    0 ≤ calc_cost t s cfg ∧
    calc_cost none 0 cfg = cfg.DEFAULT_COST := by
  refine ⟨?_, ?_, ?_, by simp [calc_cost]⟩
  · rintro rfl; rfl
  · rintro a rfl; rfl
  · cases t with
    | none => simpa [calc_cost] using add_nonneg hs hd
    | some a =>
        have ha' : 0 ≤ a := ha a rfl
        simpa [calc_cost] using add_nonneg hs (mul_nonneg ha' ht)

/-- Witness for C1 at a concrete configuration and input. -/
theorem calc_cost_spec_witness :
    ((some 3 : Option Int) = none → calc_cost (some 3) 5 ⟨100, 2⟩ = 5 + 100) ∧
    (∀ a, (some 3 : Option Int) = some a →
      calc_cost (some 3) 5 ⟨100, 2⟩ = 5 + a * 2) ∧
    0 ≤ calc_cost (some 3) 5 ⟨100, 2⟩ ∧
    calc_cost none 0 ⟨100, 2⟩ = 100 :=
  calc_cost_spec ⟨100, 2⟩ (some 3) 5 (by decide) (by decide) (by decide)
    (by intro a h; cases h; decide)

/-! #### C2 -/

/-- Invariant of the `choose_artist` scan: folding `chooseStep` over `l`
starting from `b` either keeps `b` (when nothing in `l` beats it) or
lands on the first element of `l` that is strictly cheaper than `b` and
no more expensive than anything else in `l`. -/
theorem foldl_chooseStep_spec (l : List Artist) :
    ∀ b : Artist,
      (l.foldl chooseStep b = b ∧ ∀ a ∈ l, b.cost ≤ a.cost) ∨
      (∃ i : Nat, ∃ hi : i < l.length,
        l.foldl chooseStep b = l[i] ∧
        l[i].cost < b.cost ∧
        (∀ a ∈ l, l[i].cost ≤ a.cost) ∧
        (∀ j, ∀ hj : j < l.length, j < i → l[i].cost < l[j].cost)) := by
  induction l with
  | nil => intro b; exact Or.inl ⟨rfl, by simp⟩
  | cons x t ih =>
      intro b
      by_cases hbx : x.cost < b.cost
      · -- the head strictly improves on the accumulator
        have hstep : chooseStep b x = x := by simp [chooseStep, hbx]
        rcases ih x with ⟨heq, hmin⟩ | ⟨i, hi, heq, hlt, hmin, hfirst⟩
        · refine Or.inr ⟨0, by simp, ?_, ?_, ?_, ?_⟩
          · simpa [hstep] using heq
          · simpa using hbx
          · intro a ha
            rcases List.mem_cons.mp ha with h | h
            · simp [h]
            · simpa using hmin a h
          · intro j hj hj0; omega
        · refine Or.inr ⟨i + 1, by simpa using hi, ?_, ?_, ?_, ?_⟩
          · simpa [hstep] using heq
          · simpa using lt_trans hlt hbx
          · intro a ha
            rcases List.mem_cons.mp ha with h | h
            · simpa [h] using le_of_lt hlt
            · simpa using hmin a h
          · intro j hj hji
            cases j with
            | zero => simpa using hlt
            | succ j' =>
                have hj' : j' < i := by omega
                simpa using hfirst j' (by simpa using hj) hj'
      · -- the accumulator survives the head
        push_neg at hbx
        have hstep : chooseStep b x = b := by
          simp [chooseStep, not_lt.mpr hbx]
        rcases ih b with ⟨heq, hmin⟩ | ⟨i, hi, heq, hlt, hmin, hfirst⟩
        · refine Or.inl ⟨by simpa [hstep] using heq, ?_⟩
          intro a ha
          rcases List.mem_cons.mp ha with h | h
          · exact h ▸ hbx
          · exact hmin a h
        · refine Or.inr ⟨i + 1, by simpa using hi, ?_, ?_, ?_, ?_⟩
          · simpa [hstep] using heq
          · simpa using hlt
          · intro a ha
            rcases List.mem_cons.mp ha with h | h
            · simpa [h] using le_of_lt (lt_of_lt_of_le hlt hbx)
            · simpa using hmin a h
          · intro j hj hji
            cases j with
            | zero => simpa using lt_of_lt_of_le hlt hbx
            | succ j' =>
                have hj' : j' < i := by omega
                simpa using hfirst j' (by simpa using hj) hj'

/-- Claim C2: On every non-empty artist list, `choose_artist` returns the
element of minimal cost, and among equal minimal costs the first one in
listing order: the result sits at an index `i` such that every element
is at least as expensive and every earlier element is strictly more
expensive. -/
theorem choose_artist_first_min (l : List Artist) (h : l ≠ []) :
    ∃ i : Nat, ∃ hi : i < l.length,
      choose_artist l = some l[i] ∧
      (∀ a ∈ l, l[i].cost ≤ a.cost) ∧
      (∀ j, ∀ hj : j < l.length, j < i → l[i].cost < l[j].cost) := by
  match l with
  | [] => exact absurd rfl h
  | x :: t =>
      rcases foldl_chooseStep_spec (x :: t) x with ⟨heq, hmin⟩ |
        ⟨i, hi, heq, _, hmin, hfirst⟩
      · refine ⟨0, by simp, ?_, ?_, ?_⟩
        · simp [choose_artist, heq]
        · simpa using hmin
        · intro j hj hj0; omega
      · exact ⟨i, hi, by simp [choose_artist, heq], hmin, hfirst⟩

/-- The artist list `[{cost:5},{cost:3},{cost:3}]` from the claim. -/
def exampleArtists : List Artist := [⟨0, 5⟩, ⟨1, 3⟩, ⟨2, 3⟩]

/-- Witness for C2 on the example list of the claim; `choose_artist`
picks the element at index 1 (the first of the two cost-3 artists). -/
theorem choose_artist_first_min_witness :
    (∃ i : Nat, ∃ hi : i < exampleArtists.length,
      choose_artist exampleArtists = some exampleArtists[i] ∧
      (∀ a ∈ exampleArtists, exampleArtists[i].cost ≤ a.cost) ∧
      (∀ j, ∀ hj : j < exampleArtists.length, j < i →
        exampleArtists[i].cost < exampleArtists[j].cost)) ∧
    choose_artist exampleArtists = some ⟨1, 3⟩ :=
  ⟨choose_artist_first_min exampleArtists (by decide), by decide⟩

/-! ### `iotacanvas/common/synchro.py` — `EventQueue`

`EventQueue` wraps a `queue.PriorityQueue` (`_queue`) and a plain FIFO
`queue.Queue` (`_notifier`).  `put` inserts a `PrioritizedItem` into
`_queue` and then posts the bare item to `_notifier` (`_cb_put`); a
callback-converted stop event posts the sentinel `True` to `_notifier`
when set.  `get_and_wait_on_event` returns `True` immediately if the
event is already set; otherwise it empties `_notifier`
(`_clear_notifier`) and blocks on `_notifier.get(timeout)`, so what it
returns is whatever is posted to the notifier next.  We model a run as
the state at the moment the wait begins plus the list of operations
(puts / stop-signal sets) performed while the caller is blocked. -/

/-- A message travelling through the notifier channel: either a queued
item (with the priority it was enqueued under) or the `True` sentinel
posted when the stop event is set. -/
inductive Msg where
  | item (priority data : Nat)
  | sentinel
  deriving Repr, DecidableEq

/-- State of an `EventQueue`: the priority queue contents in enqueue
order (each entry is `(priority, data)`) and the notifier FIFO. -/
structure EventQueue where
  pq : List (Nat × Nat)
  notifier : List Msg
  deriving Repr, DecidableEq

/-- An operation another thread may perform while the waiter is
blocked: `EventQueue.put` with a priority, or setting the
callback-converted stop event. -/
inductive Op where
  | put (priority data : Nat)
  | setEvent
  deriving Repr, DecidableEq

/-- The notifier message an operation posts (`_cb_put(item)` from `put`,
`_cb_put(True)` from the event's set callback). -/
def msgOf : Op → Msg
  | .put p d => .item p d
  | .setEvent => .sentinel

/-- Effect of one operation on the queue state: `put` appends to the
priority queue and posts the item to the notifier; setting the event
posts the sentinel. -/
def applyOp (st : EventQueue) : Op → EventQueue
  | .put p d => ⟨st.pq ++ [(p, d)], st.notifier ++ [.item p d]⟩
  | .setEvent => ⟨st.pq, st.notifier ++ [.sentinel]⟩

/-- Effect of a sequence of operations. -/
def applyOps (st : EventQueue) (ops : List Op) : EventQueue :=
  ops.foldl applyOp st

/-- Embedding of `EventQueue.get_and_wait_on_event(event, timeout)`:
if the stop event is already set, return the sentinel immediately;
otherwise clear the notifier, then block until the notifier receives a
message and return the first message posted by the operations `ops`
that happen during the wait (`none` models the timeout exception when
no operation occurs). -/
def get_and_wait_on_event (st : EventQueue) (eventSet : Bool) (ops : List Op) :
    Option Msg :=
  if eventSet then some .sentinel
  else (applyOps ⟨st.pq, []⟩ ops).notifier.head?

/-! #### C3 -/

/-- Running operations on a state only ever appends their messages to
the notifier. -/
theorem applyOps_notifier (ops : List Op) :
    ∀ pq n, (applyOps ⟨pq, n⟩ ops).notifier = n ++ ops.map msgOf := by
  induction ops with
  | nil => intro pq n; simp [applyOps]
  | cons op rest ih =>
      intro pq n
      cases op with
      | put p d =>
          simpa [applyOps, applyOp, msgOf] using
            ih (pq ++ [(p, d)]) (n ++ [Msg.item p d])
      | setEvent =>
          simpa [applyOps, applyOp, msgOf] using ih pq (n ++ [Msg.sentinel])

/-- Claim C3, counterexample: It is not true that a wake caused by
enqueued items returns the item of numerically smallest priority among
the items then in the priority queue: with two puts of priorities 50
then 1 during the wait, the waiter receives the priority-50 item even
though the priority-1 item is in the priority queue. -/
theorem get_and_wait_min_priority_cex :
    ¬ (∀ (st : EventQueue) (ops : List Op) (p d : Nat),
        get_and_wait_on_event st false ops = some (.item p d) →
        ∀ q ∈ (applyOps ⟨st.pq, []⟩ ops).pq, p ≤ q.1) := by
  intro hclaim
  have h50 : get_and_wait_on_event ⟨[], []⟩ false [.put 50 0, .put 1 1]
      = some (.item 50 0) := by decide
  have hmem : ((1, 1) : Nat × Nat) ∈
      (applyOps ⟨([] : List (Nat × Nat)), []⟩ [.put 50 0, .put 1 1]).pq := by
    decide
  have : (50 : Nat) ≤ 1 := hclaim ⟨[], []⟩ [.put 50 0, .put 1 1] 50 0 h50 (1, 1) hmem
  omega

/-- Claim C3, amended: the function `get_and_wait_on_event` returns the sentinel
`True` immediately when the stop event is already set; otherwise it
returns the message posted by the *first* operation performed during
the wait — notifier FIFO order, i.e. enqueue order of `put`s and event
sets interleaved — regardless of priorities, and it never consults the
priority queue (a timeout, `none`, occurs exactly when no operation
happens). -/
theorem get_and_wait_fifo (st : EventQueue) (ops : List Op) :
    get_and_wait_on_event st true ops = some .sentinel ∧
    get_and_wait_on_event st false ops = ops.head?.map msgOf := by
  refine ⟨rfl, ?_⟩
  show (applyOps ⟨st.pq, []⟩ ops).notifier.head? = ops.head?.map msgOf
  rw [applyOps_notifier ops st.pq []]
  cases ops <;> simp [msgOf]

/-! ### `aimarket/artist.py` — the job ledger (`job` table) -/

/-- One row of the `job` table: `access_key`, `addr_index`, `ai_id`,
and the two columns set on completion (`completed`, `filename`),
both `NULL` while the job is pending. -/
structure JobRec where
  access_key : String
  addr_index : Nat
  ai_id : Nat
  completed : Option Nat
  filename : Option String
  deriving Repr, DecidableEq

/-- The jobs table: rows keyed by the integer primary key `id`. -/
abbrev JobsTable := List (Nat × JobRec)

/-- Embedding of `SELECT ... FROM job WHERE id = ?` followed by `fetchone()`:
the first row with the given id, if any. -/
def findJob (tbl : JobsTable) (jobid : Nat) : Option JobRec :=
  (tbl.find? (fun r => r.1 == jobid)).map (·.2)

/-- The HTTP errors `get_job` can raise via `abort`. -/
inductive ApiError where
  | notFound
  | forbidden
  deriving Repr, DecidableEq

/-- The HTTP status code of each error (`abort(404)` / `abort(403)`). -/
def statusCode : ApiError → Nat
  | .notFound => 404
  | .forbidden => 403

/-- Embedding of `get_job(jobid, key)`: look the row up by id; `abort(404)`
when it does not exist, `abort(403)` when `key != job['access_key']`,
otherwise return the row. -/
def get_job (tbl : JobsTable) (jobid : Nat) (key : String) : Except ApiError JobRec :=
  match findJob tbl jobid with
  | none => .error .notFound
  | some job => if key ≠ job.access_key then .error .forbidden else .ok job

/-- Embedding of `DELETE FROM job WHERE id = ?` — removes every row with the id. -/
def deleteJob (tbl : JobsTable) (jobid : Nat) : JobsTable :=
  tbl.filter (fun r => r.1 ≠ jobid)

/-- Embedding of `UPDATE job SET completed = ?, filename = ? WHERE id = ?` — the
completion update performed by `art_generator`; it unconditionally
overwrites the two columns of every row with the id and cannot fail. -/
def finalizeJob (tbl : JobsTable) (jobid : Nat) (t : Nat) (fn : String) : JobsTable :=
  tbl.map (fun r =>
    if r.1 = jobid then (r.1, { r.2 with completed := some t, filename := some fn })
    else r)

/-! ### `aimarket/artist.py` — `art_generator` (the payment watcher) -/

/-- Observable outcome of one `art_generator` run: the job row was
deleted (timeout) at a given elapsed time, or the artifact was
generated and the completion update ran (with the elapsed time and the
number of balance polls performed), or an exception escaped the thread
at a given elapsed time, or the loop never exited (fuel exhausted;
unreachable for a positive poll interval). -/
inductive Outcome where
  | deleted (elapsed : Nat)
  | finalized (elapsed polls : Nat)
  | excRaised (elapsed : Nat)
  | hung
  deriving Repr, DecidableEq

/-- The polling loop of `art_generator`:
`while balance < required_balance and now < start_time + wait_time:
  sleep(BALANCE_CHECK_INTERVAL); balance = iota.get_balance(addr_index)`.
Time is discrete: after `k` sleeps the elapsed time is `k * interval`.
`bal k` is the balance the `k`-th poll reports; `none` models the poll
raising (there is no `try` around `get_balance`, so the exception
escapes).  After the loop, a final balance below `required` deletes the
job row, otherwise the artist plugin runs and the completion update is
made.  `fuel` bounds the recursion depth. -/
def artGenLoop (required : Int) (deadline interval : Nat) (bal : Nat → Option Int) :
    Nat → Nat → Int → Outcome
  | 0, _, _ => .hung
  | fuel + 1, k, balance =>
      if balance < required ∧ k * interval < deadline then
        match bal (k + 1) with
        | none => .excRaised ((k + 1) * interval)
        | some b => artGenLoop required deadline interval bal fuel (k + 1) b
      else if balance < required then .deleted (k * interval)
      else .finalized (k * interval) k

/-- Embedding of `art_generator`'s control flow: the balance starts at
`0`, the deadline is `config['WAIT_PAYMENT']` (converted to the same
time unit as the poll interval `BALANCE_CHECK_INTERVAL`), and the loop
runs with enough fuel for any positive interval. -/
def art_generator (required : Int) (deadline interval : Nat) (bal : Nat → Option Int) :
    Outcome :=
  artGenLoop required deadline interval bal (deadline + 1) 0 0

/-- How an outcome acts on the jobs table: a timeout deletes the row, a
completion runs the update, an escaped exception (or a hung loop)
touches nothing. -/
def applyOutcome (tbl : JobsTable) (jobid : Nat) (t : Nat) (fn : String) :
    Outcome → JobsTable
  | .deleted _ => deleteJob tbl jobid
  | .finalized _ _ => finalizeJob tbl jobid t fn
  | .excRaised _ => tbl
  | .hung => tbl

/-! ### `aimarket/iotautil.py` — `IotaUtil.generate_address` -/

/-- Embedding of `IotaUtil.generate_address`: inside one transaction the
stored `addr_index` is incremented and committed, the returned index is
the committed value minus one (the pre-increment counter), and only
then is the address derived from the index by a slow ledger call that
may fail (`deriveOk = false`); a failed derivation happens after the
commit, so the counter stays advanced.  The result is the new counter
value paired with the allocated index (`none` when derivation fails
and the exception propagates to the caller). -/
def generate_address (counter : Nat) (deriveOk : Bool) : Nat × Option Nat :=
  let newCounter := counter + 1
  let addr_index := newCounter - 1
  (newCounter, if deriveOk then some addr_index else none)

/-- A sequence of `generate_address` calls (serialized by the database
transaction), each with its derivation success flag; returns the final
counter and the indices actually handed out. -/
def runAllocs (counter : Nat) : List Bool → Nat × List Nat
  | [] => (counter, [])
  | ok :: rest =>
      let step := generate_address counter ok
      let next := runAllocs step.1 rest
      (next.1, step.2.toList ++ next.2)

/-! #### C7 -/

/-- Claim C7: `get_job` fails with `NotFound` exactly when no row with the
given id exists, fails with `Forbidden` exactly when the row exists but
the key differs from its `access_key`, and otherwise returns the stored
row. -/
theorem get_job_spec (tbl : JobsTable) (jobid : Nat) (key : String) :
    (findJob tbl jobid = none ↔ ∀ r ∈ tbl, r.1 ≠ jobid) ∧
    (get_job tbl jobid key = .error .notFound ↔ findJob tbl jobid = none) ∧
    (get_job tbl jobid key = .error .forbidden ↔
      ∃ j, findJob tbl jobid = some j ∧ key ≠ j.access_key) ∧
    (∀ j, get_job tbl jobid key = .ok j ↔
      findJob tbl jobid = some j ∧ key = j.access_key) := by
  refine ⟨?_, ?_, ?_, ?_⟩
  · unfold findJob
    rw [Option.map_eq_none', List.find?_eq_none]
    simp
  · cases hf : findJob tbl jobid with
    | none => simp [get_job, hf]
    | some j => by_cases hk : key ≠ j.access_key <;> simp [get_job, hf, hk]
  · cases hf : findJob tbl jobid with
    | none => simp [get_job, hf]
    | some j => by_cases hk : key ≠ j.access_key <;> simp [get_job, hf, hk]
  · intro j'
    cases hf : findJob tbl jobid with
    | none => simp [get_job, hf]
    | some j =>
        by_cases hk : key ≠ j.access_key
        · simp [get_job, hf, hk]
          intro h
          subst h
          exact hk
        · have hk' : key = j.access_key := not_not.mp hk
          simp only [get_job, hf, if_neg hk]
          constructor
          · intro h
            have hjj : j = j' := by injection h
            subst hjj
            exact ⟨rfl, hk'⟩
          · rintro ⟨hsome, _⟩
            have hjj : j = j' := by injection hsome
            subst hjj
            rfl

/-! #### C9 -/

/-- The jobs table used for the C9 scenarios: one pending job with id 1
whose access key is `"secret-key"`. -/
def jobsWrongKey : JobsTable := [(1, ⟨"secret-key", 0, 1, none, none⟩)]

/-- Claim C9, counterexample: a query with a wrong key on an existing job
and a query on a non-existent job id do *not* have the same response
shape: the former is `Forbidden` (status 403), the latter `NotFound`
(status 404), so an observer can tell whether the job exists. -/
theorem get_job_wrong_key_cex :
    get_job jobsWrongKey 1 "wrong" = .error .forbidden ∧
    get_job jobsWrongKey 2 "wrong" = .error .notFound ∧
    statusCode .forbidden = 403 ∧ statusCode .notFound = 404 ∧
    ApiError.forbidden ≠ ApiError.notFound := by
  exact ⟨rfl, rfl, rfl, rfl, by decide⟩

/-- Claim C9, amended: For every existing job and every key different
from its `access_key`, `get_job` returns the bare `Forbidden` error —
which carries no job contents — with status code 403, while a
non-existent id yields the bare `NotFound` error with status code 404;
the two responses contain no job data but differ in status code. -/
theorem get_job_wrong_key_forbidden (tbl : JobsTable) (jobid : Nat)
    (key : String) (j : JobRec)
    (hj : findJob tbl jobid = some j) (hk : key ≠ j.access_key) :
    get_job tbl jobid key = .error .forbidden ∧
    (∀ jobid2, findJob tbl jobid2 = none →
      get_job tbl jobid2 key = .error .notFound) ∧
    statusCode .forbidden = 403 ∧ statusCode .notFound = 404 := by
  refine ⟨by simp [get_job, hj, hk], ?_, rfl, rfl⟩
  intro jobid2 h2
  simp [get_job, h2]

/-- Witness for C9 (amended) on the concrete one-job table. -/
theorem get_job_wrong_key_forbidden_witness :
    get_job jobsWrongKey 1 "wrong" = .error .forbidden ∧
    (∀ jobid2, findJob jobsWrongKey jobid2 = none →
      get_job jobsWrongKey jobid2 "wrong" = .error .notFound) ∧
    statusCode .forbidden = 403 ∧ statusCode .notFound = 404 :=
  get_job_wrong_key_forbidden jobsWrongKey 1 "wrong" ⟨"secret-key", 0, 1, none, none⟩
    (by decide) (by decide)

/-! #### C5 -/

/-- Looking a job up after the completion update: the update rewrites
exactly the row with the given id, unconditionally. -/
theorem findJob_finalizeJob (tbl : JobsTable) (jobid : Nat) (t : Nat) (fn : String) :
    findJob (finalizeJob tbl jobid t fn) jobid
      = (findJob tbl jobid).map
          (fun j => { j with completed := some t, filename := some fn }) := by
  induction tbl with
  | nil => rfl
  | cons r rest ih =>
      by_cases h : r.1 = jobid
      · simp [finalizeJob, findJob, List.find?_cons, h]
      · simp only [finalizeJob, List.map_cons, if_neg h] at *
        simpa [findJob, List.find?_cons, h] using ih

/-- The jobs table used for the C5 scenario: one pending job. -/
def jobsPending : JobsTable := [(1, ⟨"k", 7, 2, none, none⟩)]

/-- Claim C5, counterexample: The completion update does not fail when it
runs a second time on the same job: after finalizing job 1 at time 10
with `"a.png"` and again at time 20 with `"b.png"`, the second call has
succeeded and overwritten `completed`/`filename` — so they are not set
"exactly once" and no `AlreadyFinalized` error exists. -/
theorem finalize_twice_cex :
    findJob (finalizeJob jobsPending 1 10 "a.png") 1
      = some ⟨"k", 7, 2, some 10, some "a.png"⟩ ∧
    findJob (finalizeJob (finalizeJob jobsPending 1 10 "a.png") 1 20 "b.png") 1
      = some ⟨"k", 7, 2, some 20, some "b.png"⟩ ∧
    (some 20 : Option Nat) ≠ some 10 := by
  exact ⟨by decide, by decide, by decide⟩

/-- Claim C5, amended: The completion update performed by `art_generator`
is a plain SQL `UPDATE`: it sets `completed` to the given time and
`filename` on the job's row and cannot fail; invoked a second time on
the same job it simply overwrites both fields with the new values
instead of failing with `AlreadyFinalized`. -/
theorem finalize_update_overwrites (tbl : JobsTable) (jobid : Nat) (j : JobRec)
    (t1 t2 : Nat) (f1 f2 : String) (hj : findJob tbl jobid = some j) :
    findJob (finalizeJob tbl jobid t1 f1) jobid
      = some { j with completed := some t1, filename := some f1 } ∧
    findJob (finalizeJob (finalizeJob tbl jobid t1 f1) jobid t2 f2) jobid
      = some { j with completed := some t2, filename := some f2 } := by
  constructor
  · rw [findJob_finalizeJob, hj]; rfl
  · rw [findJob_finalizeJob, findJob_finalizeJob, hj]; rfl

/-- Witness for C5 (amended) on the concrete one-job table. -/
theorem finalize_update_overwrites_witness :
    findJob (finalizeJob jobsPending 1 10 "a.png") 1
      = some { (⟨"k", 7, 2, none, none⟩ : JobRec) with
               completed := some 10, filename := some "a.png" } ∧
    findJob (finalizeJob (finalizeJob jobsPending 1 10 "a.png") 1 20 "b.png") 1
      = some { (⟨"k", 7, 2, none, none⟩ : JobRec) with
               completed := some 20, filename := some "b.png" } :=
  finalize_update_overwrites jobsPending 1 ⟨"k", 7, 2, none, none⟩ 10 20 "a.png" "b.png"
    (by decide)

/-! #### C4 -/

/-- Exit analysis of the polling loop when every observed balance stays
below the required cost: the loop exits at the first multiple of the
poll interval that reaches the deadline, and the job row is deleted
there. -/
theorem artGenLoop_timeout (required : Int) (deadline interval : Nat)
    (bal : Nat → Option Int) (hi : 0 < interval)
    (hb : ∀ k, ∃ b, bal k = some b ∧ b < required) :
    ∀ fuel k balance, balance < required →
      deadline + 1 ≤ fuel + k →
      (k = 0 ∨ (k - 1) * interval < deadline) →
      ∃ e, artGenLoop required deadline interval bal fuel k balance = .deleted e ∧
        deadline ≤ e ∧ e < deadline + interval := by
  intro fuel
  induction fuel with
  | zero =>
      intro k balance _ hfk hprev
      exfalso
      rcases hprev with rfl | hlt
      · omega
      · have h2 : k - 1 ≤ (k - 1) * interval :=
          Nat.le_mul_of_pos_right (k - 1) hi
        have h3 : deadline ≤ k - 1 := by omega
        exact absurd (lt_of_le_of_lt (le_trans h3 h2) hlt) (lt_irrefl _)
  | succ fuel ih =>
      intro k balance hblt hfk hprev
      by_cases hkd : k * interval < deadline
      · rcases hb (k + 1) with ⟨b, hbk, hbr⟩
        have hstep :
            artGenLoop required deadline interval bal (fuel + 1) k balance
              = artGenLoop required deadline interval bal fuel (k + 1) b := by
          simp [artGenLoop, hblt, hkd, hbk]
        rw [hstep]
        refine ih (k + 1) b hbr (by omega) (Or.inr ?_)
        simpa using hkd
      · refine ⟨k * interval, ?_, Nat.le_of_not_lt hkd, ?_⟩
        · simp [artGenLoop, hblt, hkd]
        · rcases hprev with rfl | hlt
          · have hd0 : deadline = 0 := by
              simpa using Nat.le_of_not_lt hkd
            simpa [hd0] using hi
          · rcases Nat.eq_zero_or_pos k with rfl | hkpos
            · exact absurd (by simpa using hlt) (by simpa using hkd)
            · obtain ⟨j, rfl⟩ :=
                Nat.exists_eq_succ_of_ne_zero (Nat.pos_iff_ne_zero.mp hkpos)
              have hj : j * interval < deadline := by simpa using hlt
              calc (j + 1) * interval = j * interval + interval :=
                    Nat.succ_mul j interval
                _ < deadline + interval := Nat.add_lt_add_right hj interval

/-- Claim C4: For every job whose observed balance never reaches the
required cost (and a positive poll interval), `art_generator` deletes
the job row; the deletion happens at an elapsed time no earlier than
the payment deadline and no later than the deadline plus one poll
interval, and a subsequent `get_job` status query for that id on the
post-deletion table fails with `NotFound` (404). -/
theorem art_generator_timeout_deletes (required : Int) (deadline interval : Nat)
    (bal : Nat → Option Int) (tbl : JobsTable) (jobid : Nat) (key : String)
    (hr : 0 < required) (hi : 0 < interval)
    (hb : ∀ k, ∃ b, bal k = some b ∧ b < required) :
    ∃ e, art_generator required deadline interval bal = .deleted e ∧
      deadline ≤ e ∧ e ≤ deadline + interval ∧
      get_job (deleteJob tbl jobid) jobid key = .error .notFound ∧
      statusCode .notFound = 404 := by
  obtain ⟨e, he, h1, h2⟩ :=
    artGenLoop_timeout required deadline interval bal hi hb
      (deadline + 1) 0 0 hr (by omega) (Or.inl rfl)
  refine ⟨e, he, h1, le_of_lt h2, ?_, rfl⟩
  have hnone : findJob (deleteJob tbl jobid) jobid = none := by
    unfold findJob
    rw [Option.map_eq_none', List.find?_eq_none]
    intro x hx
    have hmem := List.of_mem_filter hx
    simp only [decide_eq_true_eq] at hmem
    simpa using hmem
  simp [get_job, hnone]

/-- Witness for C4: required cost 1, deadline 2, interval 1, every poll
reports balance 0. -/
theorem art_generator_timeout_deletes_witness :
    ∃ e, art_generator 1 2 1 (fun _ => some 0) = .deleted e ∧
      2 ≤ e ∧ e ≤ 2 + 1 ∧
      get_job (deleteJob jobsPending 1) 1 "k" = .error .notFound ∧
      statusCode .notFound = 404 :=
  art_generator_timeout_deletes 1 2 1 (fun _ => some 0) jobsPending 1 "k"
    (by decide) (by decide) (fun k => ⟨0, rfl, by decide⟩)

/-! #### C6 -/

/-- Claim C6 (code bug): `art_generator` has no exception handling around
`iota.get_balance`: at the failing input where the very first balance
poll raises (required cost 1, deadline 10, interval 1, every poll
failing), the watcher thread terminates with the escaped exception
after one interval instead of treating the failure as "balance
unchanged" and polling on until the deadline, and the job row is left
untouched — neither deleted nor finalized — so the job stays pending
forever. -/
theorem art_generator_balance_exception_kills_watcher :
    art_generator 1 10 1 (fun _ => none) = .excRaised 1 ∧
    applyOutcome jobsPending 1 99 "x.png" (.excRaised 1) = jobsPending ∧
    (∀ e, Outcome.excRaised 1 ≠ .deleted e) ∧
    (∀ e p, Outcome.excRaised 1 ≠ .finalized e p) := by
  refine ⟨rfl, rfl, ?_, ?_⟩
  · intro e h; cases h
  · intro e p h; cases h

/-! #### C10 -/

/-- Claim C10: When the computed required cost is 0 (surcharge 0 and
average time 0), the initial balance of 0 already satisfies
`balance >= required`, so `art_generator` performs zero balance polls —
skipping the payment loop entirely, whatever the deadline, interval and
balance trace — and proceeds directly to artifact generation and the
completion update at elapsed time 0. -/
theorem art_generator_zero_cost_skips_polling (cfg : Config)
    (deadline interval : Nat) (bal : Nat → Option Int) :
    calc_cost (some 0) 0 cfg = 0 ∧
    art_generator (calc_cost (some 0) 0 cfg) deadline interval bal
      = .finalized 0 0 := by
  have h : calc_cost (some 0) 0 cfg = 0 := by simp [calc_cost]
  refine ⟨h, ?_⟩
  rw [h]
  show artGenLoop 0 deadline interval bal (deadline + 1) 0 0 = .finalized 0 0
  simp [artGenLoop]

/-! #### C8 -/

/-- The counter after a run of allocations advances by one per call,
independently of derivation failures. -/
theorem runAllocs_counter (flags : List Bool) :
    ∀ c, (runAllocs c flags).1 = c + flags.length := by
  induction flags with
  | nil => intro c; simp [runAllocs]
  | cons ok rest ih =>
      intro c
      simp only [runAllocs, generate_address, List.length_cons]
      rw [ih (c + 1)]
      omega

/-- Every index handed out during a run is at least the starting
counter value. -/
theorem runAllocs_lower_bound (flags : List Bool) :
    ∀ c x, x ∈ (runAllocs c flags).2 → c ≤ x := by
  induction flags with
  | nil => intro c x hx; simp [runAllocs] at hx
  | cons ok rest ih =>
      intro c x hx
      simp only [runAllocs, generate_address] at hx
      rcases List.mem_append.mp hx with h | h
      · cases ok <;> simp at h
        omega
      · exact le_trans (Nat.le_succ c) (ih (c + 1) x h)

/-- Claim C8: For every sequence of `generate_address` calls, the indices
returned are strictly increasing in call order — hence pairwise
distinct, no value is ever returned twice — the counter advances by
exactly one per call whether or not derivation succeeds, and a call
whose address derivation fails returns no index while still consuming
one counter value, leaving a gap. -/
theorem generate_address_fresh_indices (c : Nat) (flags : List Bool) :
    List.Pairwise (· < ·) (runAllocs c flags).2 ∧
    List.Pairwise (· ≠ ·) (runAllocs c flags).2 ∧
    (runAllocs c flags).1 = c + flags.length ∧
    (∀ ok, (generate_address c ok).1 = c + 1) ∧
    (generate_address c false).2 = none ∧
    (generate_address c true).2 = some c := by
  have hsorted : ∀ (fs : List Bool) (c0 : Nat),
      List.Pairwise (· < ·) (runAllocs c0 fs).2 := by
    intro fs
    induction fs with
    | nil => intro c0; simp [runAllocs]
    | cons ok rest ih =>
        intro c0
        simp only [runAllocs, generate_address]
        cases ok with
        | false => simpa using ih (c0 + 1)
        | true =>
            simp only [if_pos, Option.toList_some, List.singleton_append]
            refine List.Pairwise.cons ?_ (ih (c0 + 1))
            intro x hx
            exact lt_of_lt_of_le (Nat.lt_succ_self c0)
              (runAllocs_lower_bound rest (c0 + 1) x hx)
  refine ⟨hsorted flags c, ?_, runAllocs_counter flags c, fun ok => rfl, rfl, rfl⟩
  exact (hsorted flags c).imp (fun h => Nat.ne_of_lt h)

end IotArt
